import Mathlib

/-!
Shallow embedding of the pessimistic-locking transaction core in
`utilities/transactions/transaction_impl.cc` (class `TransactionImpl`).

External collaborators (the lock table, the store's write path, the clock,
the snapshot object) are modelled as oracle parameters: each external call's
result is an input of the embedded function, and the set of per-key locks the
lock table holds on behalf of this transaction is threaded explicitly.
Machine integers (`SequenceNumber`, timestamps) are modelled as `Nat`;
the claims under study do not involve overflow.
-/

namespace RocksDBTxn

/-- Sentinel sequence number (`kMaxSequenceNumber` from the engine's headers,
outside this source file): largest representable sequence number, used by the
transaction code as an "infinity / not yet validated" marker. Its exact value
is irrelevant to the logic; only that it is the maximum tracked value and
distinct from real sequence numbers, which are all strictly below it. -/
def kMaxSequenceNumber : Nat := 2 ^ 56 - 1

/-- Result statuses observable in this core. `ok` is `Status::OK()`, `expired`
is `Status::Expired()`, `notFound` is `Status::NotFound()`; the remaining
constructors stand for the failure statuses external collaborators can
return (lock timeout, lock conflict / busy, snapshot-validation conflict,
store write error). -/
inductive Status
  | ok
  | expired
  | notFound
  | lockTimeout
  | lockConflict
  | conflict
  | writeError
  deriving Repr, DecidableEq

/-- Execution status of a transaction (`ExecutionStatus` in the source). -/
inductive ExecutionStatus
  | STARTED
  | COMMITTING
  | LOCKS_STOLEN
  deriving Repr, DecidableEq

/-- Key bytes: a `std::string` key as its byte sequence, compared
byte-lexicographically exactly as `std::string`s under `<` (the
lexicographic order on lists). -/
abbrev Key := List Nat

/-- A (column-family id, key bytes) pair. -/
abbrev KeyPair := Nat × Key

/-- The Tracked-Key Ledger (`TransactionKeyMap`): entries in insertion order,
mapping a (column family, key) pair to the earliest sequence number the
transaction knows the key was not modified after. -/
abbrev TransactionKeyMap := List (KeyPair × Nat)

/-- Ledger lookup: the sequence number recorded for a pair, if any. -/
def lookupKey : TransactionKeyMap → KeyPair → Option Nat
  | [], _ => none
  | (q, s) :: rest, p => if q = p then some s else lookupKey rest p

/-- Modelled from the spec: `TransactionBaseImpl::TrackKey` lives outside this
source file; spec section 4.1 specifies the ledger operation
`record(cf, key, seq)` as "inserts or overwrites the entry for (cf,key) with
seq". New pairs are appended (insertion order is what savepoints mark);
existing pairs are overwritten in place. -/
def trackKey : TransactionKeyMap → KeyPair → Nat → TransactionKeyMap
  | [], p, seq => [(p, seq)]
  | (q, s) :: rest, p, seq =>
    if q = p then (q, seq) :: rest else (q, s) :: trackKey rest p seq

/-- The set of per-key locks the external lock table currently holds on
behalf of this transaction. -/
abbrev LockSet := List KeyPair

/-- Release of a single lock (`TransactionDBImpl::UnLock(txn, cf, key)`,
modelled at the interface boundary): the pair disappears from the
transaction's held set. -/
def eraseLock (locks : LockSet) (p : KeyPair) : LockSet :=
  locks.filter (fun q => q ≠ p)

/-- Release of a set of locks (`TransactionDBImpl::UnLock(txn, key_map)`,
modelled at the interface boundary). -/
def unlockKeys (locks : LockSet) (ps : List KeyPair) : LockSet :=
  locks.filter (fun q => q ∉ ps)

/-- Result of `ValidateSnapshot`: the returned status, the final value of the
caller's by-reference `new_seqno` slot, and whether the store's write history
was consulted (`TransactionUtil::CheckKeyForConflicts` called). -/
structure ValidateResult where
  status : Status
  newSeqno : Nat
  storeAccessed : Bool
  deriving Repr, DecidableEq

/-- `TransactionImpl::ValidateSnapshot`. `checkConflict` is the oracle result
of `TransactionUtil::CheckKeyForConflicts` (an external collaborator);
`snapshotSeq` is `snapshot_->GetSequenceNumber()`; `prevSeqno` is the caller's
`current_seqno`; `newSeqnoIn` is the value already in the caller's
`new_seqno` slot, which the fast path leaves untouched. -/
def validateSnapshot (checkConflict : Status) (snapshotSeq prevSeqno newSeqnoIn : Nat) :
    ValidateResult :=
  if prevSeqno ≤ snapshotSeq then
    { status := Status.ok, newSeqno := newSeqnoIn, storeAccessed := false }
  else
    { status := checkConflict, newSeqno := snapshotSeq, storeAccessed := true }

/-- Result of `TryLock`: returned status, the transaction's ledger and held
lock set afterwards, whether the external lock table's acquire primitive was
called, and whether the store's write history was consulted. -/
structure TryLockResult where
  status : Status
  ledger : TransactionKeyMap
  locks : LockSet
  acquireCalled : Bool
  storeAccessed : Bool
  deriving Repr, DecidableEq

/-- `TransactionImpl::TryLock(column_family, key, untracked)`.
Oracles: `acquireStatus` is the result `TransactionDBImpl::TryLock` would
return for this key (`Status.ok` meaning the lock was granted and entered the
held set); `latestSeq` is `db_->GetLatestSequenceNumber()`; `checkConflict`
is the conflict-check result used by `ValidateSnapshot`; `snapshot` is the
transaction's snapshot sequence number, if a snapshot is set. -/
def tryLock (acquireStatus : Status) (latestSeq : Nat) (checkConflict : Status)
    (snapshot : Option Nat) (ledger : TransactionKeyMap) (locks : LockSet)
    (cfhId : Nat) (key : Key) (untracked : Bool) : TryLockResult :=
  let p : KeyPair := (cfhId, key)
  let found := lookupKey ledger p
  let previouslyLocked := found.isSome
  let currentSeqno := found.getD kMaxSequenceNumber
  -- lock this key if this transaction hasn't already locked it
  let s0 : Status := if previouslyLocked then Status.ok else acquireStatus
  let locks1 : LockSet :=
    if previouslyLocked then locks
    else if acquireStatus = Status.ok then locks ++ [p] else locks
  if untracked || snapshot.isNone then
    -- remember the earliest sequence number this key is known unmodified after
    let newSeqno := if currentSeqno = kMaxSequenceNumber then latestSeq else currentSeqno
    if s0 = Status.ok then
      { status := Status.ok, ledger := trackKey ledger p newSeqno, locks := locks1,
        acquireCalled := !previouslyLocked, storeAccessed := false }
    else
      { status := s0, ledger := ledger, locks := locks1,
        acquireCalled := !previouslyLocked, storeAccessed := false }
  else
    let snapshotSeq := snapshot.getD 0
    if s0 = Status.ok then
      let v := validateSnapshot checkConflict snapshotSeq currentSeqno kMaxSequenceNumber
      if v.status = Status.ok then
        { status := Status.ok, ledger := trackKey ledger p v.newSeqno, locks := locks1,
          acquireCalled := !previouslyLocked, storeAccessed := v.storeAccessed }
      else
        -- failed to validate: unlock the key we just locked, if newly locked
        let locks2 := if previouslyLocked then locks1 else eraseLock locks1 p
        { status := v.status, ledger := ledger, locks := locks2,
          acquireCalled := !previouslyLocked, storeAccessed := v.storeAccessed }
    else
      { status := s0, ledger := ledger, locks := locks1,
        acquireCalled := !previouslyLocked, storeAccessed := false }

/-- `TransactionImpl::IsExpired`: a nonzero absolute expiration time that the
wall clock (`now`, from `Env::NowMicros`) has reached. -/
def isExpired (expirationTime now : Nat) : Bool :=
  if 0 < expirationTime then
    if expirationTime ≤ now then true else false
  else false

/-- An atomic compare-and-set on the execution status
(`std::atomic_compare_exchange_strong`): returns the status afterwards and
whether the exchange happened. -/
def cas (cur expected desired : ExecutionStatus) : ExecutionStatus × Bool :=
  if cur = expected then (desired, true) else (cur, false)

/-- Result of `DoCommit`: the returned status, whether `db_->Write` was
performed, and the execution status afterwards. -/
structure CommitResult where
  status : Status
  wrote : Bool
  execStatus : ExecutionStatus
  deriving Repr, DecidableEq

/-- `TransactionImpl::DoCommit(batch)`. Oracles: `writeStatus` is the result
`db_->Write(write_options_, batch)` would return; `now` is the wall clock at
the expiry check; `execStatus` is the value of the atomic `exec_status_` at
the moment the compare-and-set runs (a concurrent lock-stealer may have
changed it after the expiry check). -/
def doCommit (writeStatus : Status) (now expirationTime : Nat)
    (execStatus : ExecutionStatus) : CommitResult :=
  if 0 < expirationTime then
    if isExpired expirationTime now then
      { status := Status.expired, wrote := false, execStatus := execStatus }
    else
      let c := cas execStatus ExecutionStatus.STARTED ExecutionStatus.COMMITTING
      if c.2 then
        { status := writeStatus, wrote := true, execStatus := c.1 }
      else
        { status := Status.expired, wrote := false, execStatus := c.1 }
  else
    { status := writeStatus, wrote := true, execStatus := execStatus }

/-- `TransactionImpl::TryStealingLocks`: the competing compare-and-set from
`STARTED` to `LOCKS_STOLEN`; returns the status afterwards and whether the
steal succeeded. -/
def tryStealingLocks (execStatus : ExecutionStatus) : ExecutionStatus × Bool :=
  cas execStatus ExecutionStatus.STARTED ExecutionStatus.LOCKS_STOLEN

/-- The two parties that may attempt a transition on `exec_status_`:
a commit (`DoCommit`) and a lock-stealer (`TryStealingLocks`). -/
inductive StatusAction
  | commitCAS
  | stealCAS
  deriving Repr, DecidableEq

/-- The value each party's compare-and-set tries to install. -/
def StatusAction.desired : StatusAction → ExecutionStatus
  | StatusAction.commitCAS => ExecutionStatus.COMMITTING
  | StatusAction.stealCAS => ExecutionStatus.LOCKS_STOLEN

/-- One compare-and-set attempt by either party; both use expected value
`STARTED`. -/
def casStep (st : ExecutionStatus) (a : StatusAction) : ExecutionStatus × Bool :=
  cas st ExecutionStatus.STARTED a.desired

/-- A serialization of the compare-and-set attempts on one transaction's
`exec_status_` (atomics serialize; any interleaving is some such sequence):
returns the final status and how many attempts succeeded. -/
def runCas : ExecutionStatus → List StatusAction → ExecutionStatus × Nat
  | st, [] => (st, 0)
  | st, a :: rest =>
    let c := casStep st a
    let r := runCas c.1 rest
    (r.1, (if c.2 then 1 else 0) + r.2)

/-- One staged write-batch operation, tagged as the handler callbacks see it
(`PutCF` / `MergeCF` / `DeleteCF`): column-family id, key, and (for put and
merge) a value, which is irrelevant to locking. -/
inductive BatchOp
  | putCF (cf : Nat) (key : Key) (value : Key)
  | mergeCF (cf : Nat) (key : Key) (value : Key)
  | deleteCF (cf : Nat) (key : Key)
  deriving Repr, DecidableEq

/-- The column-family id an operation addresses. -/
def BatchOp.cf : BatchOp → Nat
  | BatchOp.putCF c _ _ => c
  | BatchOp.mergeCF c _ _ => c
  | BatchOp.deleteCF c _ => c

/-- The key an operation addresses. -/
def BatchOp.key : BatchOp → Key
  | BatchOp.putCF _ k _ => k
  | BatchOp.mergeCF _ k _ => k
  | BatchOp.deleteCF _ k => k

/-- A write batch: the staged operations in insertion order (the iteration
contract of `WriteBatch::Iterate`). -/
abbrev WriteBatch := List BatchOp

/-- The (cf, key) pair of each operation of a batch, in staging order. -/
def batchPairs (batch : WriteBatch) : List KeyPair :=
  batch.map (fun op => (op.cf, op.key))

/-- The lock planner's accumulator: `Handler::keys_`, a
`std::map<uint32_t, std::set<std::string>>` — column families in ascending id
order, each with its keys in ascending byte-lexicographic order, no
duplicates, modelled as a strictly sorted association list of strictly
sorted key lists. -/
abbrev LockPlan := List (Nat × List Key)

/-- Ordered duplicate-free insertion into one column family's key set
(`std::set<std::string>::insert`, which `Handler::RecordKey`'s
find-then-insert amounts to). -/
def insertKey (k : Key) : List Key → List Key
  | [] => [k]
  | k' :: ks =>
    if k < k' then k :: k' :: ks
    else if k' < k then k' :: insertKey k ks
    else k' :: ks

/-- `Handler::RecordKey(column_family_id, key)`: insert the key into the
column family's ordered set, creating the column family's entry at its
ordered position if absent. -/
def recordKey (cf : Nat) (k : Key) : LockPlan → LockPlan
  | [] => [(cf, [k])]
  | (cf', ks) :: rest =>
    if cf < cf' then (cf, [k]) :: (cf', ks) :: rest
    else if cf' < cf then (cf', ks) :: recordKey cf k rest
    else (cf', insertKey k ks) :: rest

/-- Iterating the batch through the handler: every operation's (cf, key) is
recorded, in staging order (`batch->Iterate(&handler)`). -/
def buildPlan (batch : WriteBatch) : LockPlan :=
  batch.foldl (fun m op => recordKey op.cf op.key m) []

/-- The flattened acquisition order of a lock plan: the exact order in which
`LockBatch`'s nested loops visit (cf, key) pairs. -/
def planPairs : LockPlan → List KeyPair
  | [] => []
  | (cf, ks) :: rest => ks.map (fun k => (cf, k)) ++ planPairs rest

/-- Well-formedness of a lock-plan accumulator, the representation invariant
of `Handler::keys_` (`std::map` of `std::set`s): column-family ids strictly
ascending, and each column family's key list nonempty and strictly ascending
in the byte-lexicographic order. -/
def PlanWF (m : LockPlan) : Prop :=
  m.Pairwise (fun a b => a.1 < b.1) ∧
  ∀ e ∈ m, e.2 ≠ [] ∧ e.2.Pairwise (fun a b : Key => a < b)

/-- The inner acquisition loop of `LockBatch` over the planned pairs in plan
order: `acquire` is the oracle for `TransactionDBImpl::TryLock` per pair;
returns the first non-ok status (or ok) and the pairs acquired, in order. -/
def lockBatchLoop (acquire : KeyPair → Status) : List KeyPair → Status × List KeyPair
  | [] => (Status.ok, [])
  | p :: rest =>
    if acquire p = Status.ok then
      let r := lockBatchLoop acquire rest
      (r.1, p :: r.2)
    else (acquire p, [])

/-- Result of `LockBatch`: the status, the pairs recorded into the caller's
`keys_to_unlock` map (each stored there with sequence `kMaxSequenceNumber`,
which is irrelevant to unlocking), and the transaction's held lock set
afterwards. -/
structure LockBatchResult where
  status : Status
  keysToUnlock : List KeyPair
  locks : LockSet
  deriving Repr, DecidableEq

/-- `TransactionImpl::LockBatch(batch, keys_to_unlock)`: plan the batch,
acquire each planned pair in order, and on failure release every lock this
call acquired. -/
def lockBatch (acquire : KeyPair → Status) (locks : LockSet) (batch : WriteBatch) :
    LockBatchResult :=
  let r := lockBatchLoop acquire (planPairs (buildPlan batch))
  let locks1 := locks ++ r.2
  if r.1 = Status.ok then
    { status := Status.ok, keysToUnlock := r.2, locks := locks1 }
  else
    { status := r.1, keysToUnlock := r.2, locks := unlockKeys locks1 r.2 }

/-- The per-transaction state the commit / rollback / savepoint operations
act on: the ledger, the held locks, the pending batch, the savepoint stack
(each marker remembers the ledger length and batch length at `SetSavePoint`,
top first), and the execution status. -/
structure TxnState where
  ledger : TransactionKeyMap
  locks : LockSet
  batch : WriteBatch
  savePoints : List (Nat × Nat)
  execStatus : ExecutionStatus
  deriving Repr, DecidableEq

/-- `TransactionImpl::Clear`: release every tracked key through the lock
table (`txn_db_impl_->UnLock(this, &GetTrackedKeys())`), then clear base
state. Modelled from the spec: `TransactionBaseImpl::Clear` lives outside
this source file; per spec sections 4.5 and 3, clearing discards the ledger,
the pending batch and the savepoint stack. -/
def clear (st : TxnState) : TxnState :=
  { ledger := [], locks := unlockKeys st.locks (st.ledger.map Prod.fst),
    batch := [], savePoints := [], execStatus := st.execStatus }

/-- `TransactionImpl::Commit`: `DoCommit` on the transaction's accumulated
batch, then `Clear`, whatever `DoCommit` returned. -/
def commit (writeStatus : Status) (now expirationTime : Nat) (st : TxnState) :
    Status × TxnState :=
  let r := doCommit writeStatus now expirationTime st.execStatus
  (r.status, clear { st with execStatus := r.execStatus })

/-- Modelled from the spec: `TransactionBaseImpl::SetSavePoint` lives outside
this source file; per spec sections 3 and 4.5 a savepoint marks the current
batch/ledger boundary and savepoints stack. -/
def setSavePoint (st : TxnState) : TxnState :=
  { st with savePoints := (st.ledger.length, st.batch.length) :: st.savePoints }

/-- Modelled from the spec: `TransactionBaseImpl::GetTrackedKeysSinceSavePoint`
lives outside this source file; per spec section 4.1 (`entries_since`) it
yields the pairs whose ledger entries were added after the most recent
savepoint marker, or nothing when no savepoint is set. -/
def trackedKeysSinceSavePoint (st : TxnState) : Option (List KeyPair) :=
  match st.savePoints with
  | [] => none
  | (lm, _) :: _ => some ((st.ledger.drop lm).map Prod.fst)

/-- `TransactionImpl::RollbackToSavePoint`: release the keys tracked since
the last savepoint, then the base-class rollback. Modelled from the spec for
the base part (`TransactionBaseImpl::RollbackToSavePoint` lives outside this
source file): per spec section 4.5 it truncates the pending batch and ledger
back to the marker and pops exactly one savepoint, failing with not-found
when no savepoint is set. -/
def rollbackToSavePoint (st : TxnState) : Status × TxnState :=
  match st.savePoints with
  | [] => (Status.notFound, st)
  | (lm, bm) :: rest =>
    let released := (st.ledger.drop lm).map Prod.fst
    (Status.ok,
     { ledger := st.ledger.take lm,
       locks := unlockKeys st.locks released,
       batch := st.batch.take bm,
       savePoints := rest,
       execStatus := st.execStatus })

/-- Expiration time computed by the constructor (`TransactionImpl::
TransactionImpl`): a non-negative `expiration` option (milliseconds) is
converted to the absolute time `start_time_ + expiration * 1000`; a negative
option leaves the never-expires value 0. -/
def expirationTimeOf (startTime : Nat) (expiration : Int) : Nat :=
  if 0 ≤ expiration then startTime + expiration.toNat * 1000 else 0

/-- Whether the constructor registers the transaction in the database-wide
expirable-transaction registry (`InsertExpirableTransaction`), done exactly
when `expiration_time_ > 0`. -/
def registeredExpirable (startTime : Nat) (expiration : Int) : Bool :=
  if 0 < expirationTimeOf startTime expiration then true else false

/-! Helper lemmas -/

theorem runCas_of_ne_started {st : ExecutionStatus} (h : st ≠ ExecutionStatus.STARTED) :
    ∀ acts, runCas st acts = (st, 0) := by
  intro acts
  induction acts with
  | nil => rfl
  | cons a rest ih =>
    simp only [runCas, casStep, cas, if_neg h, ih]
    simp

theorem statusAction_desired_ne_started (a : StatusAction) :
    a.desired ≠ ExecutionStatus.STARTED := by
  cases a <;> simp [StatusAction.desired]

theorem lookupKey_trackKey_self (m : TransactionKeyMap) (p : KeyPair) (v : Nat) :
    lookupKey (trackKey m p v) p = some v := by
  induction m with
  | nil => simp [trackKey, lookupKey]
  | cons e rest ih =>
    obtain ⟨q, s⟩ := e
    by_cases h : q = p
    · simp [trackKey, h, lookupKey]
    · simp [trackKey, h, lookupKey, ih]

theorem eraseLock_append_self (locks : LockSet) (p : KeyPair) (h : p ∉ locks) :
    eraseLock (locks ++ [p]) p = locks := by
  simp [eraseLock, List.filter_append]
  intro a b hab heq
  exact h (heq ▸ hab)

/-! The claims -/

/-- C2: the execution status moves only from `STARTED` to `COMMITTING` (by
commit) or from `STARTED` to `LOCKS_STOLEN` (by a lock-stealer), via a
compare-and-set whose expected value is `STARTED`; over any serialization of
such attempts at most one ever succeeds, and a commit whose compare-and-set
fails returns `Expired` without performing the store write. -/
theorem c2_exec_status_single_transition :
    (∀ acts, (runCas ExecutionStatus.STARTED acts).2 ≤ 1) ∧
    (∀ (st : ExecutionStatus) (a : StatusAction), (casStep st a).1 ≠ st →
      st = ExecutionStatus.STARTED ∧
      ((casStep st a).1 = ExecutionStatus.COMMITTING ∨
       (casStep st a).1 = ExecutionStatus.LOCKS_STOLEN)) ∧
    (∀ (st : ExecutionStatus) (a : StatusAction), (casStep st a).2 = true →
      st = ExecutionStatus.STARTED) ∧
    (∀ (w : Status) (now expT : Nat) (st : ExecutionStatus),
      0 < expT → isExpired expT now = false → st ≠ ExecutionStatus.STARTED →
      doCommit w now expT st =
        { status := Status.expired, wrote := false, execStatus := st }) := by
  refine ⟨?_, ?_, ?_, ?_⟩
  · intro acts
    cases acts with
    | nil => simp [runCas]
    | cons a rest =>
      have hstep : casStep ExecutionStatus.STARTED a = (a.desired, true) := by
        simp [casStep, cas]
      simp only [runCas, hstep,
        runCas_of_ne_started (statusAction_desired_ne_started a) rest]
      simp
  · intro st a
    cases st <;> cases a <;> simp [casStep, cas, StatusAction.desired]
  · intro st a
    cases st <;> cases a <;> simp [casStep, cas]
  · intro w now expT st h0 hexp hne
    simp [doCommit, h0, hexp, cas, hne]

/-- Witness for C2 at concrete inputs: with two stealers and a commit racing
from `STARTED`, exactly one compare-and-set succeeds, and a commit running
against an already-stolen status returns `Expired` without writing. -/
theorem c2_exec_status_single_transition_witness :
    (runCas ExecutionStatus.STARTED
      [StatusAction.stealCAS, StatusAction.commitCAS, StatusAction.stealCAS]).2 ≤ 1 ∧
    doCommit Status.ok 5 10 ExecutionStatus.LOCKS_STOLEN =
      { status := Status.expired, wrote := false,
        execStatus := ExecutionStatus.LOCKS_STOLEN } :=
  ⟨c2_exec_status_single_transition.1 _,
   c2_exec_status_single_transition.2.2.2 Status.ok 5 10 ExecutionStatus.LOCKS_STOLEN
     (by decide) (by decide) (by decide)⟩

/-- C4: with a nonzero expiration, `DoCommit` fails with `Expired` and skips
the store write exactly when either the wall clock has reached the expiration
time at the pre-CAS check or the compare-and-set from `STARTED` fails; in
every other case (expiration unset, or the CAS succeeds) the batch is written
and the write's own status is returned. -/
theorem c4_commit_expired_exactly_two_cases (w : Status) (now expT : Nat)
    (st : ExecutionStatus) :
    ((doCommit w now expT st).wrote = false ↔
      0 < expT ∧ (expT ≤ now ∨ st ≠ ExecutionStatus.STARTED)) ∧
    ((doCommit w now expT st).wrote = false →
      (doCommit w now expT st).status = Status.expired) ∧
    ((doCommit w now expT st).wrote = true →
      (doCommit w now expT st).status = w) := by
  by_cases h0 : 0 < expT
  · by_cases hexp : expT ≤ now
    · simp [doCommit, isExpired, h0, hexp]
    · by_cases hst : st = ExecutionStatus.STARTED
      · simp [doCommit, isExpired, h0, hexp, cas, hst]
      · simp [doCommit, isExpired, h0, hexp, cas, hst]
  · simp [doCommit, h0]

/-- Witness for C4 at concrete inputs: an expired clock yields `Expired`
without a write, and an unexpired `STARTED` transaction writes and returns
the write's status. -/
theorem c4_commit_expired_exactly_two_cases_witness :
    (doCommit Status.ok 20 10 ExecutionStatus.STARTED).wrote = false ∧
    (doCommit Status.ok 20 10 ExecutionStatus.STARTED).status = Status.expired ∧
    (doCommit Status.writeError 5 10 ExecutionStatus.STARTED).status = Status.writeError :=
  ⟨((c4_commit_expired_exactly_two_cases Status.ok 20 10 ExecutionStatus.STARTED).1).mpr
      (by decide),
   (c4_commit_expired_exactly_two_cases Status.ok 20 10 ExecutionStatus.STARTED).2.1
      (((c4_commit_expired_exactly_two_cases Status.ok 20 10 ExecutionStatus.STARTED).1).mpr
        (by decide)),
   (c4_commit_expired_exactly_two_cases Status.writeError 5 10 ExecutionStatus.STARTED).2.2
      (by decide)⟩

/-- C9: after `Commit` on the plain transaction-accumulated-batch path, the
transaction's state is cleared and every lock recorded in its ledger is
released, whatever status the commit resolved to — the returned status is
exactly `DoCommit`'s, and cleanup does not depend on it. -/
theorem c9_commit_always_clears (w : Status) (now expT : Nat) (st : TxnState) :
    (commit w now expT st).2.ledger = [] ∧
    (commit w now expT st).2.batch = [] ∧
    (commit w now expT st).2.savePoints = [] ∧
    (∀ p, p ∈ st.ledger.map Prod.fst → p ∉ (commit w now expT st).2.locks) ∧
    (commit w now expT st).1 = (doCommit w now expT st.execStatus).status := by
  refine ⟨rfl, rfl, rfl, ?_, rfl⟩
  intro p hp hmem
  simp only [commit, clear, unlockKeys, List.mem_filter, decide_eq_true_eq] at hmem
  exact hmem.2 hp

/-- Witness for C9 at concrete inputs: even when the store write fails, the
lock recorded in the ledger is released by the cleanup. -/
theorem c9_commit_always_clears_witness :
    ((0, [107]) : KeyPair) ∉
      (commit Status.writeError 0 0
        { ledger := [((0, [107]), 3)], locks := [(0, [107]), (9, [9])],
          batch := [BatchOp.putCF 0 [107] [0]], savePoints := [(0, 0)],
          execStatus := ExecutionStatus.STARTED }).2.locks :=
  (c9_commit_always_clears Status.writeError 0 0
      { ledger := [((0, [107]), 3)], locks := [(0, [107]), (9, [9])],
        batch := [BatchOp.putCF 0 [107] [0]], savePoints := [(0, 0)],
        execStatus := ExecutionStatus.STARTED }).2.2.2.1 (0, [107]) (by simp)

/-- C10: a transaction constructed with expiration option exactly zero gets
`expiration_time = start_time`, is reported expired as soon as the clock
reaches the construction time (and its commit then fails with `Expired`
without writing), and is registered as expirable; only a strictly negative
expiration option yields the never-expires value 0, which is never reported
expired and is not registered; registration happens exactly when the computed
expiration time is positive. -/
theorem c10_zero_expiration_expires_at_start (startTime : Nat) (h : 0 < startTime) :
    expirationTimeOf startTime 0 = startTime ∧
    (∀ now, startTime ≤ now → isExpired (expirationTimeOf startTime 0) now = true) ∧
    (∀ now, now < startTime → isExpired (expirationTimeOf startTime 0) now = false) ∧
    registeredExpirable startTime 0 = true ∧
    (∀ (w : Status) (now : Nat) (st : ExecutionStatus), startTime ≤ now →
      (doCommit w now (expirationTimeOf startTime 0) st).status = Status.expired ∧
      (doCommit w now (expirationTimeOf startTime 0) st).wrote = false) ∧
    (∀ e : Int, e < 0 → expirationTimeOf startTime e = 0 ∧
      registeredExpirable startTime e = false ∧
      ∀ now, isExpired (expirationTimeOf startTime e) now = false) ∧
    (∀ e : Int, registeredExpirable startTime e = true ↔
      0 < expirationTimeOf startTime e) := by
  have hzero : expirationTimeOf startTime 0 = startTime := by
    simp [expirationTimeOf]
  refine ⟨hzero, ?_, ?_, ?_, ?_, ?_, ?_⟩
  · intro now hnow
    simp [hzero, isExpired, h, hnow]
  · intro now hnow
    simp [hzero, isExpired, h, Nat.not_le.mpr hnow]
  · simp [registeredExpirable, hzero, h]
  · intro w now st hnow
    have hexp : isExpired startTime now = true := by
      simp [isExpired, h, hnow]
    rw [hzero]
    constructor <;> simp [doCommit, h, hexp]
  · intro e he
    have hneg : ¬(0 ≤ e) := by omega
    refine ⟨by simp [expirationTimeOf, hneg], ?_, ?_⟩
    · simp [registeredExpirable, expirationTimeOf, hneg]
    · intro now
      simp [expirationTimeOf, hneg, isExpired]
  · intro e
    by_cases hp : 0 < expirationTimeOf startTime e <;>
      simp [registeredExpirable, hp]

/-- Witness for C10 at concrete inputs: expiration option 0 with start time
100 expires at time 100, and expiration option −1 never expires and is not
registered. -/
theorem c10_zero_expiration_expires_at_start_witness :
    expirationTimeOf 100 0 = 100 ∧
    isExpired (expirationTimeOf 100 0) 100 = true ∧
    registeredExpirable 100 0 = true ∧
    expirationTimeOf 100 (-1) = 0 ∧
    registeredExpirable 100 (-1) = false :=
  have h := c10_zero_expiration_expires_at_start 100 (by decide)
  ⟨h.1, h.2.1 100 (by decide), h.2.2.2.1,
   (h.2.2.2.2.2.1 (-1) (by decide)).1, (h.2.2.2.2.2.1 (-1) (by decide)).2.1⟩

/-- C1 (amended): when the recorded prior sequence number of an
already-tracked key is at most the snapshot's sequence number, snapshot
validation succeeds with no store-history access and no external acquire
call, but the unchanged-by-the-fast-path `new_seqno` slot makes `TryLock`
overwrite the ledger entry with the infinity sentinel `kMaxSequenceNumber`,
not with `prior_seq`. -/
theorem c1_validate_fast_path (acq : Status) (latest : Nat) (chk : Status) (ss prior : Nat)
    (ledger : TransactionKeyMap) (locks : LockSet) (cf : Nat) (key : Key)
    (h : lookupKey ledger (cf, key) = some prior) (hle : prior ≤ ss) :
    (tryLock acq latest chk (some ss) ledger locks cf key false).status = Status.ok ∧
    (tryLock acq latest chk (some ss) ledger locks cf key false).storeAccessed = false ∧
    (tryLock acq latest chk (some ss) ledger locks cf key false).acquireCalled = false ∧
    (tryLock acq latest chk (some ss) ledger locks cf key false).ledger =
      trackKey ledger (cf, key) kMaxSequenceNumber ∧
    lookupKey (tryLock acq latest chk (some ss) ledger locks cf key false).ledger
      (cf, key) = some kMaxSequenceNumber := by
  have hv : validateSnapshot chk ss prior kMaxSequenceNumber =
      { status := Status.ok, newSeqno := kMaxSequenceNumber, storeAccessed := false } := by
    simp [validateSnapshot, hle]
  simp [tryLock, h, hv, lookupKey_trackKey_self]

/-- Counterexample to C1 as stated: with the key tracked at prior sequence 5
and a snapshot at sequence 10, validation takes the fast path, yet the ledger
entry afterwards is the sentinel `kMaxSequenceNumber`, not `prior_seq = 5`. -/
theorem c1_validate_fast_path_cex :
    (tryLock Status.ok 99 Status.ok (some 10) [((0, [107]), 5)] [(0, [107])]
      0 [107] false).storeAccessed = false ∧
    lookupKey (tryLock Status.ok 99 Status.ok (some 10) [((0, [107]), 5)] [(0, [107])]
      0 [107] false).ledger (0, [107]) = some kMaxSequenceNumber ∧
    kMaxSequenceNumber ≠ 5 := by
  refine ⟨rfl, rfl, by decide⟩

/-- Witness for C1 (amended) at concrete inputs. -/
theorem c1_validate_fast_path_witness :
    (tryLock Status.ok 99 Status.conflict (some 10) [((1, [97]), 4)] []
      1 [97] false).status = Status.ok ∧
    (tryLock Status.ok 99 Status.conflict (some 10) [((1, [97]), 4)] []
      1 [97] false).storeAccessed = false ∧
    lookupKey (tryLock Status.ok 99 Status.conflict (some 10) [((1, [97]), 4)] []
      1 [97] false).ledger (1, [97]) = some kMaxSequenceNumber :=
  have h := c1_validate_fast_path Status.ok 99 Status.conflict 10 4
    [((1, [97]), 4)] [] 1 [97] (by decide) (by decide)
  ⟨h.1, h.2.1, h.2.2.2.2⟩

/-- C5: whenever `TryLock` fails — the external acquire failed, or snapshot
validation failed — the transaction's ledger and held lock set are exactly
what they were before the call: no ledger entry is gained, a lock newly
acquired within the call has been released again, and a previously held lock
is still held. The hypothesis is the spec's ledger/lock-table consistency
invariant for this key. -/
theorem c5_trylock_failure_frame (acq : Status) (latest : Nat) (chk : Status)
    (snap : Option Nat) (ledger : TransactionKeyMap) (locks : LockSet)
    (cf : Nat) (key : Key) (unt : Bool)
    (hfresh : lookupKey ledger (cf, key) = none → (cf, key) ∉ locks) :
    (tryLock acq latest chk snap ledger locks cf key unt).status ≠ Status.ok →
      (tryLock acq latest chk snap ledger locks cf key unt).ledger = ledger ∧
      (tryLock acq latest chk snap ledger locks cf key unt).locks = locks := by
  intro hne
  cases hlk : lookupKey ledger (cf, key) with
  | some s =>
    simp only [tryLock, hlk] at hne ⊢
    simp at hne ⊢
    split_ifs at hne ⊢ <;> first
      | exact absurd rfl hne
      | exact ⟨rfl, rfl⟩
  | none =>
    have hnot : (cf, key) ∉ locks := hfresh hlk
    simp only [tryLock, hlk] at hne ⊢
    simp at hne ⊢
    split_ifs at hne ⊢ <;> first
      | exact absurd rfl hne
      | exact ⟨rfl, rfl⟩
      | exact ⟨rfl, eraseLock_append_self locks (cf, key) hnot⟩

/-- Witness for C5 at concrete inputs: a snapshot-validation conflict on a
newly acquired key leaves the ledger and lock set unchanged. -/
theorem c5_trylock_failure_frame_witness :
    (tryLock Status.ok 99 Status.conflict (some 10) [] [(7, [8])]
      0 [107] false).status ≠ Status.ok ∧
    (tryLock Status.ok 99 Status.conflict (some 10) [] [(7, [8])]
      0 [107] false).ledger = [] ∧
    (tryLock Status.ok 99 Status.conflict (some 10) [] [(7, [8])]
      0 [107] false).locks = [(7, [8])] :=
  have h := c5_trylock_failure_frame Status.ok 99 Status.conflict (some 10) []
    [(7, [8])] 0 [107] false (by decide) (by decide)
  ⟨by decide, h.1, h.2⟩

/-- C7 (amended): for a key the ledger already tracks, `TryLock` never calls
the external acquire primitive and uses the recorded sequence number as
`prior_seq`; in the untracked / no-snapshot case the recorded number is
preserved unchanged when it is not the infinity sentinel, while a
sentinel-valued entry is re-stamped with the store's latest sequence
number. -/
theorem c7_tracked_key_reuse (acq : Status) (latest : Nat) (chk : Status) (snap : Option Nat)
    (ledger : TransactionKeyMap) (locks : LockSet) (cf : Nat) (key : Key)
    (unt : Bool) (s : Nat) (h : lookupKey ledger (cf, key) = some s) :
    (tryLock acq latest chk snap ledger locks cf key unt).acquireCalled = false ∧
    (tryLock acq latest chk snap ledger locks cf key unt).locks = locks ∧
    ((unt = true ∨ snap = none) →
      (tryLock acq latest chk snap ledger locks cf key unt).status = Status.ok ∧
      (tryLock acq latest chk snap ledger locks cf key unt).ledger =
        trackKey ledger (cf, key) (if s = kMaxSequenceNumber then latest else s) ∧
      lookupKey (tryLock acq latest chk snap ledger locks cf key unt).ledger
        (cf, key) = some (if s = kMaxSequenceNumber then latest else s)) := by
  refine ⟨?_, ?_, ?_⟩
  · simp only [tryLock, h]
    simp
    split_ifs <;> rfl
  · simp only [tryLock, h]
    simp
    split_ifs <;> rfl
  · intro hd
    have hcond : (unt || (snap.isNone)) = true := by
      rcases hd with hu | hs
      · simp [hu]
      · simp [hs]
    simp [tryLock, h, hcond, lookupKey_trackKey_self]

/-- Counterexample to C7 as stated: a tracked entry whose recorded value is
the sentinel `kMaxSequenceNumber` (reachable via the C1 fast path) is not
preserved by a later snapshot-less `TryLock` — it is re-stamped with the
store's latest sequence number. -/
theorem c7_tracked_key_reuse_cex :
    lookupKey ([((0, [107]), kMaxSequenceNumber)] : TransactionKeyMap) (0, [107]) =
      some kMaxSequenceNumber ∧
    lookupKey (tryLock Status.ok 7 Status.ok none
      [((0, [107]), kMaxSequenceNumber)] [(0, [107])] 0 [107] false).ledger (0, [107]) =
      some 7 ∧
    (7 : Nat) ≠ kMaxSequenceNumber := by
  refine ⟨rfl, rfl, by decide⟩

/-- Witness for C7 (amended) at concrete inputs: a tracked non-sentinel entry
is reused without an acquire call and preserved unchanged. -/
theorem c7_tracked_key_reuse_witness :
    (tryLock Status.lockTimeout 99 Status.ok none [((0, [107]), 5)] [(0, [107])]
      0 [107] false).acquireCalled = false ∧
    (tryLock Status.lockTimeout 99 Status.ok none [((0, [107]), 5)] [(0, [107])]
      0 [107] false).status = Status.ok ∧
    lookupKey (tryLock Status.lockTimeout 99 Status.ok none [((0, [107]), 5)]
      [(0, [107])] 0 [107] false).ledger (0, [107]) = some 5 :=
  have h := c7_tracked_key_reuse Status.lockTimeout 99 Status.ok none
    [((0, [107]), 5)] [(0, [107])] 0 [107] false 5 (by decide)
  ⟨h.1, (h.2.2 (Or.inr rfl)).1, by
    have h3 := (h.2.2 (Or.inr rfl)).2.2
    simpa using h3⟩

/-- C8: with a savepoint on the stack, `RollbackToSavePoint` succeeds,
truncates the ledger and the pending batch back to the marker, pops exactly
one savepoint, releases every lock whose ledger entry was added after the
marker, and leaves every lock tracked before the marker held. The hypothesis
is the spec's invariant that the ledger never contains the same pair
twice. -/
theorem c8_rollback_savepoint (st : TxnState) (lm bm : Nat)
    (rest : List (Nat × Nat)) (hsp : st.savePoints = (lm, bm) :: rest)
    (hnodup : (st.ledger.map Prod.fst).Nodup) :
    (rollbackToSavePoint st).1 = Status.ok ∧
    (rollbackToSavePoint st).2.ledger = st.ledger.take lm ∧
    (rollbackToSavePoint st).2.batch = st.batch.take bm ∧
    (rollbackToSavePoint st).2.savePoints = rest ∧
    (∀ p, p ∈ (st.ledger.drop lm).map Prod.fst →
      p ∉ (rollbackToSavePoint st).2.locks) ∧
    (∀ p, p ∈ (st.ledger.take lm).map Prod.fst → p ∈ st.locks →
      p ∈ (rollbackToSavePoint st).2.locks) := by
  have hsplit : st.ledger.map Prod.fst =
      (st.ledger.take lm).map Prod.fst ++ (st.ledger.drop lm).map Prod.fst := by
    rw [← List.map_append, List.take_append_drop]
  rw [hsplit] at hnodup
  have hdisj := (List.nodup_append.mp hnodup).2.2
  simp only [rollbackToSavePoint, hsp]
  refine ⟨trivial, trivial, trivial, trivial, ?_, ?_⟩
  · intro p hp hmem
    simp only [unlockKeys, List.mem_filter, decide_eq_true_eq] at hmem
    exact hmem.2 hp
  · intro p hp hlck
    simp only [unlockKeys, List.mem_filter, decide_eq_true_eq]
    exact ⟨hlck, fun hin => hdisj hp hin⟩

/-- Witness for C8 at concrete inputs: with a savepoint taken after locking
k1 and then k2, k3 locked, one rollback releases k2 and k3 but not k1, and
truncates the ledger back to the marker. -/
theorem c8_rollback_savepoint_witness :
    ((0, [107, 50]) : KeyPair) ∉ (rollbackToSavePoint
      { ledger := [((0, [107, 49]), 1), ((0, [107, 50]), 2), ((0, [107, 51]), 3)],
        locks := [(0, [107, 49]), (0, [107, 50]), (0, [107, 51])], batch := [],
        savePoints := [(1, 0)], execStatus := ExecutionStatus.STARTED }).2.locks ∧
    ((0, [107, 51]) : KeyPair) ∉ (rollbackToSavePoint
      { ledger := [((0, [107, 49]), 1), ((0, [107, 50]), 2), ((0, [107, 51]), 3)],
        locks := [(0, [107, 49]), (0, [107, 50]), (0, [107, 51])], batch := [],
        savePoints := [(1, 0)], execStatus := ExecutionStatus.STARTED }).2.locks ∧
    ((0, [107, 49]) : KeyPair) ∈ (rollbackToSavePoint
      { ledger := [((0, [107, 49]), 1), ((0, [107, 50]), 2), ((0, [107, 51]), 3)],
        locks := [(0, [107, 49]), (0, [107, 50]), (0, [107, 51])], batch := [],
        savePoints := [(1, 0)], execStatus := ExecutionStatus.STARTED }).2.locks :=
  have h := c8_rollback_savepoint
    { ledger := [((0, [107, 49]), 1), ((0, [107, 50]), 2), ((0, [107, 51]), 3)],
      locks := [(0, [107, 49]), (0, [107, 50]), (0, [107, 51])], batch := [],
      savePoints := [(1, 0)], execStatus := ExecutionStatus.STARTED }
    1 0 [] rfl (by decide)
  ⟨h.2.2.2.2.1 (0, [107, 50]) (by decide), h.2.2.2.2.1 (0, [107, 51]) (by decide),
   h.2.2.2.2.2 (0, [107, 49]) (by decide) (by decide)⟩

theorem lockBatchLoop_mem_subset (acquire : KeyPair → Status) :
    ∀ (l : List KeyPair) (p : KeyPair), p ∈ (lockBatchLoop acquire l).2 → p ∈ l := by
  intro l
  induction l with
  | nil => intro p hp; simp [lockBatchLoop] at hp
  | cons q rest ih =>
    intro p hp
    by_cases h : acquire q = Status.ok
    · simp only [lockBatchLoop, if_pos h, List.mem_cons] at hp
      rcases hp with h1 | h2
      · exact h1 ▸ List.mem_cons_self q rest
      · exact List.mem_cons_of_mem q (ih p h2)
    · simp [lockBatchLoop, if_neg h] at hp

theorem lockBatchLoop_ok_all (acquire : KeyPair → Status) :
    ∀ l : List KeyPair, (lockBatchLoop acquire l).1 = Status.ok →
      (lockBatchLoop acquire l).2 = l := by
  intro l
  induction l with
  | nil => intro _; rfl
  | cons q rest ih =>
    intro hok
    by_cases h : acquire q = Status.ok
    · simp only [lockBatchLoop, if_pos h] at hok ⊢
      rw [ih hok]
    · simp only [lockBatchLoop, if_neg h] at hok
      exact absurd hok h

theorem lockBatchLoop_acquired_ok (acquire : KeyPair → Status) :
    ∀ (l : List KeyPair) (p : KeyPair), p ∈ (lockBatchLoop acquire l).2 →
      acquire p = Status.ok := by
  intro l
  induction l with
  | nil => intro p hp; simp [lockBatchLoop] at hp
  | cons q rest ih =>
    intro p hp
    by_cases h : acquire q = Status.ok
    · simp only [lockBatchLoop, if_pos h, List.mem_cons] at hp
      rcases hp with h1 | h2
      · exact h1 ▸ h
      · exact ih p h2
    · simp [lockBatchLoop, if_neg h] at hp

theorem unlockKeys_append_fresh (locks acq : List KeyPair)
    (h : ∀ p ∈ locks, p ∉ acq) : unlockKeys (locks ++ acq) acq = locks := by
  have h1 : List.filter (fun q => !decide (q ∈ acq)) locks = locks :=
    List.filter_eq_self.mpr (fun a ha => by simpa using h a ha)
  have h2 : List.filter (fun q => !decide (q ∈ acq)) acq = [] :=
    List.filter_eq_nil_iff.mpr (fun a ha => by simpa using ha)
  simp [unlockKeys, List.filter_append, h1, h2]

/-- C6: if any acquisition inside `LockBatch` fails, every lock newly
acquired earlier in that call is released before the error propagates and
the transaction's pre-existing locks are untouched (the held set is exactly
what it was); on full success `LockBatch` returns exactly the planned set of
pairs, all acquired, as the keys for the caller to release later. The
hypothesis says the batch's keys are not already held by this transaction
(the batch path is used for one-shot write-only commits). -/
theorem c6_lockbatch_unwind (acquire : KeyPair → Status) (locks : LockSet)
    (batch : WriteBatch)
    (hfresh : ∀ p ∈ planPairs (buildPlan batch), p ∉ locks) :
    ((lockBatch acquire locks batch).status ≠ Status.ok →
      (lockBatch acquire locks batch).locks = locks) ∧
    ((lockBatch acquire locks batch).status = Status.ok →
      (lockBatch acquire locks batch).keysToUnlock = planPairs (buildPlan batch) ∧
      (lockBatch acquire locks batch).locks =
        locks ++ (lockBatch acquire locks batch).keysToUnlock) ∧
    (∀ p ∈ (lockBatch acquire locks batch).keysToUnlock, acquire p = Status.ok) := by
  have hlocks : ∀ p ∈ locks,
      p ∉ (lockBatchLoop acquire (planPairs (buildPlan batch))).2 := by
    intro p hp hin
    exact hfresh p (lockBatchLoop_mem_subset acquire _ p hin) hp
  by_cases hok : (lockBatchLoop acquire (planPairs (buildPlan batch))).1 = Status.ok
  · refine ⟨fun hne => ?_, fun _ => ?_, ?_⟩
    · simp [lockBatch, hok] at hne
    · constructor
      · simp only [lockBatch, hok, if_pos rfl]
        exact lockBatchLoop_ok_all acquire _ hok
      · simp [lockBatch, hok]
    · intro p hp
      simp only [lockBatch, hok, if_pos rfl] at hp
      exact lockBatchLoop_acquired_ok acquire _ p hp
  · refine ⟨fun _ => ?_, fun heq => ?_, ?_⟩
    · simp only [lockBatch, if_neg hok]
      exact unlockKeys_append_fresh locks _ hlocks
    · simp [lockBatch, hok] at heq
    · intro p hp
      simp only [lockBatch, if_neg hok] at hp
      exact lockBatchLoop_acquired_ok acquire _ p hp

/-- Witness for C6 at concrete inputs: the second planned key fails to lock,
so the first key's lock is released again and the pre-existing lock set is
restored unchanged. -/
theorem c6_lockbatch_unwind_witness :
    (lockBatch (fun p => if p.2 = [97] then Status.lockTimeout else Status.ok)
      [(5, [5])] [BatchOp.putCF 0 [122] [0], BatchOp.deleteCF 1 [97],
        BatchOp.putCF 1 [98] [0]]).status ≠ Status.ok ∧
    (lockBatch (fun p => if p.2 = [97] then Status.lockTimeout else Status.ok)
      [(5, [5])] [BatchOp.putCF 0 [122] [0], BatchOp.deleteCF 1 [97],
        BatchOp.putCF 1 [98] [0]]).locks = [(5, [5])] :=
  have h := c6_lockbatch_unwind
    (fun p => if p.2 = [97] then Status.lockTimeout else Status.ok)
    [(5, [5])] [BatchOp.putCF 0 [122] [0], BatchOp.deleteCF 1 [97],
      BatchOp.putCF 1 [98] [0]] (by decide)
  ⟨by decide, h.1 (by decide)⟩

/-! Lock-plan lemmas for the batch lock planner -/

theorem insertKey_mem (k x : Key) :
    ∀ ks : List Key, x ∈ insertKey k ks ↔ x = k ∨ x ∈ ks := by
  intro ks
  induction ks with
  | nil => simp [insertKey]
  | cons k' ks ih =>
    by_cases h1 : k < k'
    · simp only [insertKey, if_pos h1, List.mem_cons]
    · by_cases h2 : k' < k
      · simp only [insertKey, if_neg h1, if_pos h2, List.mem_cons, ih]
        tauto
      · have hkk : k = k' := le_antisymm (not_lt.mp h2) (not_lt.mp h1)
        subst hkk
        simp only [insertKey, if_neg h1, if_neg h2, List.mem_cons]
        tauto

theorem insertKey_ne_nil (k : Key) (ks : List Key) : insertKey k ks ≠ [] := by
  cases ks with
  | nil => simp [insertKey]
  | cons k' ks =>
    by_cases h1 : k < k'
    · simp [insertKey, h1]
    · by_cases h2 : k' < k <;> simp [insertKey, h1, h2]

theorem insertKey_pairwise (k : Key) :
    ∀ ks : List Key, ks.Pairwise (fun a b : Key => a < b) →
      (insertKey k ks).Pairwise (fun a b : Key => a < b) := by
  intro ks
  induction ks with
  | nil => intro _; simp [insertKey]
  | cons k' ks ih =>
    intro hp
    obtain ⟨hk', hks⟩ := List.pairwise_cons.mp hp
    by_cases h1 : k < k'
    · simp only [insertKey, if_pos h1]
      refine List.pairwise_cons.mpr ⟨?_, hp⟩
      intro b hb
      rcases List.mem_cons.mp hb with rfl | hbks
      · exact h1
      · exact lt_trans h1 (hk' b hbks)
    · by_cases h2 : k' < k
      · simp only [insertKey, if_neg h1, if_pos h2]
        refine List.pairwise_cons.mpr ⟨?_, ih hks⟩
        intro b hb
        rcases (insertKey_mem k b ks).mp hb with rfl | hbks
        · exact h2
        · exact hk' b hbks
      · simp only [insertKey, if_neg h1, if_neg h2]
        exact hp

theorem recordKey_fst_subset (cf : Nat) (k : Key) :
    ∀ (m : LockPlan) (e : Nat × List Key), e ∈ recordKey cf k m →
      e.1 = cf ∨ e.1 ∈ m.map Prod.fst := by
  intro m
  induction m with
  | nil =>
    intro e he
    simp only [recordKey, List.mem_singleton] at he
    subst he
    exact Or.inl rfl
  | cons head rest ih =>
    obtain ⟨cf', ks⟩ := head
    intro e he
    by_cases h1 : cf < cf'
    · simp only [recordKey, if_pos h1] at he
      rcases List.mem_cons.mp he with rfl | he2
      · exact Or.inl rfl
      · exact Or.inr (List.mem_map_of_mem Prod.fst he2)
    · by_cases h2 : cf' < cf
      · simp only [recordKey, if_neg h1, if_pos h2] at he
        rcases List.mem_cons.mp he with rfl | he2
        · right; simp
        · rcases ih e he2 with h | h
          · exact Or.inl h
          · right; simp only [List.map_cons, List.mem_cons]; exact Or.inr h
      · have hcc : cf = cf' := le_antisymm (not_lt.mp h2) (not_lt.mp h1)
        simp only [recordKey, if_neg h1, if_neg h2] at he
        rcases List.mem_cons.mp he with rfl | he2
        · exact Or.inl hcc.symm
        · exact Or.inr (List.mem_map_of_mem Prod.fst (List.mem_cons_of_mem _ he2))

theorem recordKey_wf (cf : Nat) (k : Key) :
    ∀ m : LockPlan, PlanWF m → PlanWF (recordKey cf k m) := by
  intro m
  induction m with
  | nil =>
    intro _
    refine ⟨by simp [recordKey], ?_⟩
    intro e he
    simp only [recordKey, List.mem_singleton] at he
    subst he
    exact ⟨by simp, by simp⟩
  | cons head rest ih =>
    obtain ⟨cf', ks⟩ := head
    intro hwf
    obtain ⟨hpw, hent⟩ := hwf
    obtain ⟨hlt, hpw'⟩ := List.pairwise_cons.mp hpw
    by_cases h1 : cf < cf'
    · refine ⟨?_, ?_⟩
      · simp only [recordKey, if_pos h1]
        refine List.pairwise_cons.mpr ⟨?_, hpw⟩
        intro b hb
        rcases List.mem_cons.mp hb with rfl | hb2
        · exact h1
        · exact lt_trans h1 (hlt b hb2)
      · intro e he
        simp only [recordKey, if_pos h1] at he
        rcases List.mem_cons.mp he with rfl | he2
        · exact ⟨by simp, by simp⟩
        · exact hent e he2
    · by_cases h2 : cf' < cf
      · have ihwf := ih ⟨hpw', fun e he => hent e (List.mem_cons_of_mem _ he)⟩
        refine ⟨?_, ?_⟩
        · simp only [recordKey, if_neg h1, if_pos h2]
          refine List.pairwise_cons.mpr ⟨?_, ihwf.1⟩
          intro b hb
          rcases recordKey_fst_subset cf k rest b hb with hbcf | hbrest
          · rw [hbcf]; exact h2
          · rcases List.mem_map.mp hbrest with ⟨e', he', heq⟩
            exact heq ▸ hlt e' he'
        · intro e he
          simp only [recordKey, if_neg h1, if_pos h2] at he
          rcases List.mem_cons.mp he with rfl | he2
          · exact hent (cf', ks) (List.mem_cons_self _ _)
          · exact ihwf.2 e he2
      · refine ⟨?_, ?_⟩
        · simp only [recordKey, if_neg h1, if_neg h2]
          exact List.pairwise_cons.mpr ⟨hlt, hpw'⟩
        · intro e he
          simp only [recordKey, if_neg h1, if_neg h2] at he
          rcases List.mem_cons.mp he with rfl | he2
          · exact ⟨insertKey_ne_nil k ks,
              insertKey_pairwise k ks (hent (cf', ks) (List.mem_cons_self _ _)).2⟩
          · exact hent e (List.mem_cons_of_mem _ he2)

theorem planPairs_mem_record (cf : Nat) (k : Key) :
    ∀ (m : LockPlan) (q : KeyPair),
      q ∈ planPairs (recordKey cf k m) ↔ q = (cf, k) ∨ q ∈ planPairs m := by
  intro m
  induction m with
  | nil => intro q; simp [recordKey, planPairs]
  | cons head rest ih =>
    obtain ⟨cf', ks⟩ := head
    intro q
    by_cases h1 : cf < cf'
    · simp only [recordKey, if_pos h1, planPairs, List.map_cons, List.map_nil,
        List.mem_append, List.mem_cons, List.not_mem_nil, or_false]
    · by_cases h2 : cf' < cf
      · simp only [recordKey, if_neg h1, if_pos h2, planPairs, List.mem_append, ih q]
        tauto
      · have hcc : cf = cf' := le_antisymm (not_lt.mp h2) (not_lt.mp h1)
        subst hcc
        simp only [recordKey, if_neg h1, if_neg h2, planPairs, List.mem_append,
          List.mem_map, insertKey_mem]
        constructor
        · rintro (⟨x, hx | hx, rfl⟩ | h)
          · exact Or.inl (by rw [hx])
          · exact Or.inr (Or.inl ⟨x, hx, rfl⟩)
          · exact Or.inr (Or.inr h)
        · rintro (rfl | ⟨x, hx, rfl⟩ | h)
          · exact Or.inl ⟨k, Or.inl rfl, rfl⟩
          · exact Or.inl ⟨x, Or.inr hx, rfl⟩
          · exact Or.inr h

theorem planPairs_fst : ∀ (m : LockPlan) (q : KeyPair), q ∈ planPairs m →
    q.1 ∈ m.map Prod.fst := by
  intro m
  induction m with
  | nil => intro q hq; simp [planPairs] at hq
  | cons head rest ih =>
    obtain ⟨cf, ks⟩ := head
    intro q hq
    rcases List.mem_append.mp hq with hmap | hrest
    · rcases List.mem_map.mp hmap with ⟨x, _, heq⟩
      simp [← heq]
    · simp only [List.map_cons, List.mem_cons]
      exact Or.inr (ih q hrest)

theorem planPairs_tail_fst_lt (cf : Nat) (ks : List Key) (r : LockPlan)
    (hpw : ((cf, ks) :: r).Pairwise (fun a b => a.1 < b.1)) (q : KeyPair)
    (hq : q ∈ planPairs r) : cf < q.1 := by
  rcases List.mem_map.mp (planPairs_fst r q hq) with ⟨e, he, heq⟩
  exact heq ▸ (List.pairwise_cons.mp hpw).1 e he

theorem mem_planPairs_tail (cf : Nat) (ks : List Key) (r : LockPlan) (q : KeyPair)
    (hq : q ∈ planPairs ((cf, ks) :: r)) (hlt : cf < q.1) : q ∈ planPairs r := by
  rcases List.mem_append.mp hq with hmap | h
  · exfalso
    rcases List.mem_map.mp hmap with ⟨x, _, heq⟩
    rw [← heq] at hlt
    exact lt_irrefl _ hlt
  · exact h

theorem planPairs_head_le (cf : Nat) (ks : List Key) (r : LockPlan)
    (hpw : ((cf, ks) :: r).Pairwise (fun a b => a.1 < b.1)) (q : KeyPair)
    (hq : q ∈ planPairs ((cf, ks) :: r)) : cf ≤ q.1 := by
  rcases List.mem_append.mp hq with hmap | hrest
  · rcases List.mem_map.mp hmap with ⟨x, _, heq⟩
    rw [← heq]
  · exact le_of_lt (planPairs_tail_fst_lt cf ks r hpw q hrest)

theorem planPairs_head_iff (cf : Nat) (ks : List Key) (r : LockPlan)
    (hpw : ((cf, ks) :: r).Pairwise (fun a b => a.1 < b.1)) (k : Key) :
    (cf, k) ∈ planPairs ((cf, ks) :: r) ↔ k ∈ ks := by
  constructor
  · intro hq
    rcases List.mem_append.mp hq with hmap | hrest
    · rcases List.mem_map.mp hmap with ⟨x, hx, heq⟩
      injection heq with _ h2
      exact h2 ▸ hx
    · exact absurd (planPairs_tail_fst_lt cf ks r hpw (cf, k) hrest) (lt_irrefl cf)
  · intro hk
    exact List.mem_append.mpr (Or.inl (List.mem_map_of_mem _ hk))

theorem sortedKeys_ext (l1 l2 : List Key) (h1 : l1.Pairwise (fun a b : Key => a < b))
    (h2 : l2.Pairwise (fun a b : Key => a < b)) (hm : ∀ x, x ∈ l1 ↔ x ∈ l2) :
    l1 = l2 := by
  have nd : ∀ l : List Key, l.Pairwise (fun a b : Key => a < b) → l.Nodup :=
    fun l h => h.imp ne_of_lt
  exact List.eq_of_perm_of_sorted
    ((List.perm_ext_iff_of_nodup (nd l1 h1) (nd l2 h2)).mpr hm) h1 h2

theorem planWF_ext : ∀ m1 m2 : LockPlan, PlanWF m1 → PlanWF m2 →
    (∀ q, q ∈ planPairs m1 ↔ q ∈ planPairs m2) → m1 = m2 := by
  intro m1
  induction m1 with
  | nil =>
    intro m2 _ hwf2 hm
    cases m2 with
    | nil => rfl
    | cons head rest =>
      obtain ⟨cf, ks⟩ := head
      exfalso
      obtain ⟨k, hk⟩ := List.exists_mem_of_ne_nil ks
        (hwf2.2 (cf, ks) (List.mem_cons_self _ _)).1
      have hmem : (cf, k) ∈ planPairs ([] : LockPlan) :=
        (hm (cf, k)).mpr (List.mem_append.mpr (Or.inl (List.mem_map_of_mem _ hk)))
      simp [planPairs] at hmem
  | cons head1 r1 ih =>
    obtain ⟨cf1, ks1⟩ := head1
    intro m2 hwf1 hwf2 hm
    cases m2 with
    | nil =>
      exfalso
      obtain ⟨k, hk⟩ := List.exists_mem_of_ne_nil ks1
        (hwf1.2 (cf1, ks1) (List.mem_cons_self _ _)).1
      have hmem : (cf1, k) ∈ planPairs ([] : LockPlan) :=
        (hm (cf1, k)).mp (List.mem_append.mpr (Or.inl (List.mem_map_of_mem _ hk)))
      simp [planPairs] at hmem
    | cons head2 r2 =>
      obtain ⟨cf2, ks2⟩ := head2
      obtain ⟨k1, hk1⟩ := List.exists_mem_of_ne_nil ks1
        (hwf1.2 (cf1, ks1) (List.mem_cons_self _ _)).1
      obtain ⟨k2, hk2⟩ := List.exists_mem_of_ne_nil ks2
        (hwf2.2 (cf2, ks2) (List.mem_cons_self _ _)).1
      have h12 : (cf1, k1) ∈ planPairs ((cf2, ks2) :: r2) :=
        (hm (cf1, k1)).mp (List.mem_append.mpr (Or.inl (List.mem_map_of_mem _ hk1)))
      have h21 : (cf2, k2) ∈ planPairs ((cf1, ks1) :: r1) :=
        (hm (cf2, k2)).mpr (List.mem_append.mpr (Or.inl (List.mem_map_of_mem _ hk2)))
      have hcf : cf1 = cf2 :=
        le_antisymm (planPairs_head_le cf1 ks1 r1 hwf1.1 (cf2, k2) h21)
          (planPairs_head_le cf2 ks2 r2 hwf2.1 (cf1, k1) h12)
      subst hcf
      have hks : ks1 = ks2 := by
        apply sortedKeys_ext ks1 ks2
          (hwf1.2 (cf1, ks1) (List.mem_cons_self _ _)).2
          (hwf2.2 (cf1, ks2) (List.mem_cons_self _ _)).2
        intro x
        rw [← planPairs_head_iff cf1 ks1 r1 hwf1.1 x,
          ← planPairs_head_iff cf1 ks2 r2 hwf2.1 x]
        exact hm (cf1, x)
      subst hks
      have hwt1 : PlanWF r1 :=
        ⟨(List.pairwise_cons.mp hwf1.1).2,
         fun e he => hwf1.2 e (List.mem_cons_of_mem _ he)⟩
      have hwt2 : PlanWF r2 :=
        ⟨(List.pairwise_cons.mp hwf2.1).2,
         fun e he => hwf2.2 e (List.mem_cons_of_mem _ he)⟩
      have hmt : ∀ q, q ∈ planPairs r1 ↔ q ∈ planPairs r2 := by
        intro q
        constructor
        · intro hq
          have hlt := planPairs_tail_fst_lt cf1 ks1 r1 hwf1.1 q hq
          exact mem_planPairs_tail cf1 ks1 r2 q
            ((hm q).mp (List.mem_append.mpr (Or.inr hq))) hlt
        · intro hq
          have hlt := planPairs_tail_fst_lt cf1 ks1 r2 hwf2.1 q hq
          exact mem_planPairs_tail cf1 ks1 r1 q
            ((hm q).mpr (List.mem_append.mpr (Or.inr hq))) hlt
      rw [ih r2 hwt1 hwt2 hmt]

theorem buildPlanAux_mem : ∀ (b : WriteBatch) (m : LockPlan) (q : KeyPair),
    q ∈ planPairs (b.foldl (fun m op => recordKey op.cf op.key m) m) ↔
      q ∈ batchPairs b ∨ q ∈ planPairs m := by
  intro b
  induction b with
  | nil => intro m q; simp [batchPairs]
  | cons op b ih =>
    intro m q
    simp only [List.foldl_cons]
    rw [ih (recordKey op.cf op.key m) q, planPairs_mem_record]
    simp only [batchPairs, List.map_cons, List.mem_cons]
    tauto

theorem buildPlanAux_wf : ∀ (b : WriteBatch) (m : LockPlan), PlanWF m →
    PlanWF (b.foldl (fun m op => recordKey op.cf op.key m) m) := by
  intro b
  induction b with
  | nil => intro m h; exact h
  | cons op b ih =>
    intro m h
    simp only [List.foldl_cons]
    exact ih (recordKey op.cf op.key m) (recordKey_wf op.cf op.key m h)

theorem buildPlan_wf (b : WriteBatch) : PlanWF (buildPlan b) :=
  buildPlanAux_wf b [] ⟨List.Pairwise.nil, by simp⟩

theorem buildPlan_mem (b : WriteBatch) (q : KeyPair) :
    q ∈ planPairs (buildPlan b) ↔ q ∈ batchPairs b := by
  rw [buildPlan, buildPlanAux_mem]
  simp [planPairs]

theorem planPairs_nodup : ∀ m : LockPlan, PlanWF m → (planPairs m).Nodup := by
  intro m
  induction m with
  | nil => intro _; simp [planPairs]
  | cons head rest ih =>
    obtain ⟨cf, ks⟩ := head
    intro hwf
    have hks := hwf.2 (cf, ks) (List.mem_cons_self _ _)
    refine List.nodup_append.mpr ⟨?_, ?_, ?_⟩
    · refine List.Nodup.map ?_ (hks.2.imp ne_of_lt)
      intro a b hab
      simpa using congrArg Prod.snd hab
    · exact ih ⟨(List.pairwise_cons.mp hwf.1).2,
        fun e he => hwf.2 e (List.mem_cons_of_mem _ he)⟩
    · intro q hq1 hq2
      rcases List.mem_map.mp hq1 with ⟨x, _, heq⟩
      have hlt := planPairs_tail_fst_lt cf ks rest hwf.1 q hq2
      rw [← heq] at hlt
      exact lt_irrefl _ hlt

/-- C3: the lock plan computed from a write batch contains each (column
family, key) pair at most once even when the batch stages several operations
on the same key; column families appear in strictly ascending id order and
keys within a column family in strictly ascending byte-lexicographic order;
and the plan — hence the acquisition order — is a pure function of the set
of (cf, key) pairs the batch touches, independent of the order the
operations were staged. -/
theorem c3_lock_plan_canonical (b1 b2 : WriteBatch)
    (hset : ∀ q, q ∈ batchPairs b1 ↔ q ∈ batchPairs b2) :
    (planPairs (buildPlan b1)).Nodup ∧
    (buildPlan b1).Pairwise (fun a b => a.1 < b.1) ∧
    (∀ e ∈ buildPlan b1, e.2.Pairwise (fun a b : Key => a < b)) ∧
    buildPlan b1 = buildPlan b2 := by
  have hwf1 := buildPlan_wf b1
  have hwf2 := buildPlan_wf b2
  refine ⟨planPairs_nodup _ hwf1, hwf1.1, fun e he => (hwf1.2 e he).2, ?_⟩
  apply planWF_ext _ _ hwf1 hwf2
  intro q
  rw [buildPlan_mem, buildPlan_mem]
  exact hset q

/-- Witness for C3 at concrete inputs: a batch with a duplicated key staged
in one order and a duplicate-free batch staged in the reverse order produce
the identical, duplicate-free plan. -/
theorem c3_lock_plan_canonical_witness :
    (planPairs (buildPlan [BatchOp.putCF 0 [98] [0], BatchOp.mergeCF 0 [97] [0],
      BatchOp.deleteCF 0 [98]])).Nodup ∧
    buildPlan [BatchOp.putCF 0 [98] [0], BatchOp.mergeCF 0 [97] [0],
      BatchOp.deleteCF 0 [98]] =
      buildPlan [BatchOp.putCF 0 [97] [1], BatchOp.putCF 0 [98] [2]] :=
  have h := c3_lock_plan_canonical
    [BatchOp.putCF 0 [98] [0], BatchOp.mergeCF 0 [97] [0], BatchOp.deleteCF 0 [98]]
    [BatchOp.putCF 0 [97] [1], BatchOp.putCF 0 [98] [2]]
    (by intro q; simp [batchPairs, BatchOp.cf, BatchOp.key]; tauto)
  ⟨h.1, h.2.2.2⟩

end RocksDBTxn
